import Mathlib

/-!
# Verification of the dotfiles installer's merge logic

A shallow embedding of the two source files of the repository
(`install.py` and `.local/bin/check.py`) and proofs about the claims of
the specification.

Python strings are modelled as `List Char` (one entry per code point).
Python `str.find(sub, start)` is modelled by `pyFind`, which returns
`none` for Python's `-1`.  Python slices `s[: i]` / `s[j :]` are modelled
by `List.take` / `List.drop`, with the one negative index that actually
occurs in the code (`s[: start_index - 1]` when `start_index == 0`, i.e.
`s[: -1]`) modelled explicitly by a case split, exactly as Python's
negative-index semantics prescribe (`s[: -1] = s.take (s.length - 1)`).
-/

/-- A Python string: a list of code points. -/
abbrev PyStr := List Char

namespace Dotfiles

/-- Auxiliary search used by `pyFind`: scan the remaining string `s`,
whose first character sits at absolute index `k`, for the first position
where `sub` is a prefix. -/
def pyFindAux (sub : PyStr) : PyStr → Nat → Option Nat
  | [], k => if sub <+: ([] : PyStr) then some k else none
  | c :: t, k => if sub <+: (c :: t) then some k else pyFindAux sub t (k + 1)

/-- Python's `s.find(sub, i)` (for `0 ≤ i ≤ len(s)`): the least index
`q ≥ i` at which `sub` occurs in `s`, or `none` for Python's `-1`. -/
def pyFind (s sub : PyStr) (i : Nat) : Option Nat :=
  pyFindAux sub (s.drop i) i

/-- The wrapped block `"\n" + start + "\n" + patch + "\n" + end + "\n"`
(local variable `patch_with_delimiters` of `install_string`). -/
def wrapped (patch sd ed : PyStr) : PyStr :=
  '\n' :: (sd ++ '\n' :: (patch ++ '\n' :: (ed ++ ['\n'])))

/-- Embedding of `install.py`'s `install_string(patch, string,
start_delimiter, end_delimiter)`.  `none` models Python `None`.
The final branch models
`string[: start_index - 1] + patch_with_delimiters + string[end_index + len(end_delimiter) + 1 :]`,
where `string[: start_index - 1]` is Python's `string[: -1]`
(all but the last character) when `start_index == 0`. -/
def install_string (patch string : PyStr) (sd ed : Option PyStr) : PyStr :=
  match sd, ed with
  | some sd, some ed =>
    match pyFind string sd 0 with
    | none => string ++ wrapped patch sd ed
    | some si =>
      match pyFind string ed si with
      | none => string ++ wrapped patch sd ed
      | some ei =>
        (if si = 0 then string.take (string.length - 1) else string.take (si - 1))
          ++ wrapped patch sd ed ++ string.drop (ei + ed.length + 1)
  | _, _ => patch

/-- `install.py`'s module constant `IGNORE_START_DELIMITER`. -/
def IGNORE_START_DELIMITER : PyStr := "valentjn_dotfiles_ignore_start".data

/-- `install.py`'s module constant `IGNORE_END_DELIMITER`. -/
def IGNORE_END_DELIMITER : PyStr := "valentjn_dotfiles_ignore_end".data

/-- Is `c` one of the line boundaries recognised by Python's
`str.splitlines` (other than the two-character boundary `"\r\n"`,
handled separately)? -/
def isLineBreak (c : Char) : Bool :=
  c == '\n' || c == '\r' || c == '\x0b' || c == '\x0c' ||
  c == '\x1c' || c == '\x1d' || c == '\x1e' || c == '\x85' ||
  c == '\u2028' || c == '\u2029'

/-- Worker for `splitlines`: `acc` holds the current line reversed. -/
def splitlinesGo (acc : List Char) : List Char → List PyStr
  | [] => [acc.reverse]
  | '\r' :: '\n' :: t =>
    match t with
    | [] => [acc.reverse]
    | _ => acc.reverse :: splitlinesGo [] t
  | c :: t =>
    if isLineBreak c then
      match t with
      | [] => [acc.reverse]
      | _ => acc.reverse :: splitlinesGo [] t
    else splitlinesGo (c :: acc) t

/-- Python's `str.splitlines()`: split at line boundaries, not keeping
them, with no trailing empty line for a trailing boundary, and no lines
at all for the empty string. -/
def splitlines (s : PyStr) : List PyStr :=
  match s with
  | [] => []
  | _ => splitlinesGo [] s

/-- The loop of `read_source_file`: walk the lines with the
`in_ignored_section` flag, keeping a line iff the flag is off after the
ignore-start check; a line containing the ignore-end marker clears
the flag. -/
def processLines : List PyStr → Bool → List PyStr
  | [], _ => []
  | line :: rest, inIgnored =>
    let ig1 := if IGNORE_START_DELIMITER <:+: line then true else inIgnored
    let kept := if ig1 then ([] : List PyStr) else [line]
    let ig2 := if IGNORE_END_DELIMITER <:+: line then false else ig1
    kept ++ processLines rest ig2

/-- `"\n".join(lines)`. -/
def joinNL : List PyStr → PyStr
  | [] => []
  | [l] => l
  | l :: rest => l ++ '\n' :: joinNL rest

/-- Embedding of `install.py`'s `read_source_file`, applied to the text
of the file (the `Path.read_text` I/O is outside the model):
`"\n".join(lines) + "\n"` over the surviving lines. -/
def read_source_file (s : PyStr) : PyStr :=
  joinNL (processLines (splitlines s) false) ++ ['\n']

/-- The `in_ignored_section` flag after processing a list of lines,
starting from `b`. -/
def stateAfter : List PyStr → Bool → Bool
  | [], b => b
  | line :: rest, b =>
    let ig1 := if IGNORE_START_DELIMITER <:+: line then true else b
    let ig2 := if IGNORE_END_DELIMITER <:+: line then false else ig1
    stateAfter rest ig2

mutual

/-- Modelled from the spec's description of the ignore regions (claim
side, for comparison with `processLines`): drop every line containing
the ignore-start marker and, unless that same line also contains the
ignore-end marker, every following line up to and including the next
line containing the ignore-end marker; an unmatched ignore-start
suppresses the remainder. -/
def dropIgnoredSpec : List PyStr → List PyStr
  | [] => []
  | l :: rest =>
    if IGNORE_START_DELIMITER <:+: l then
      if IGNORE_END_DELIMITER <:+: l then dropIgnoredSpec rest
      else skipIgnoredSpec rest
    else l :: dropIgnoredSpec rest

/-- Claim-side companion of `dropIgnoredSpec`: inside an ignore region,
drop lines up to and including the next line containing the ignore-end
marker. -/
def skipIgnoredSpec : List PyStr → List PyStr
  | [] => []
  | l :: rest =>
    if IGNORE_END_DELIMITER <:+: l then dropIgnoredSpec rest
    else skipIgnoredSpec rest

end

/-- Does every occurrence of the start delimiter in `doc` have the end
delimiter at or after it?  (Trivially true when the start delimiter does
not occur.)  Used as a side condition for idempotence. -/
def marker_closed (doc s e : PyStr) : Bool :=
  match pyFind doc s 0 with
  | none => true
  | some i => (pyFind doc e i).isSome

/-- A JSON value as produced by Python's `json.loads`: objects keep
insertion order and have unique keys, modelled as association lists.
Numbers are modelled as integers (the repository's JSON files hold no
floats); Python's cross-type numeric equalities (`True == 1`) are not
modelled, values of different constructors are unequal. -/
inductive JSON where
  | null : JSON
  | bool (b : Bool) : JSON
  | num (n : Int) : JSON
  | str (s : String) : JSON
  | arr (elems : List JSON) : JSON
  | obj (entries : List (String × JSON)) : JSON

mutual

/-- Structural equality of JSON values (Python's `==` on parsed JSON). -/
def jbeq : JSON → JSON → Bool
  | .null, .null => true
  | .bool a, .bool b => a == b
  | .num a, .num b => a == b
  | .str a, .str b => a == b
  | .arr xs, .arr ys => jbeqList xs ys
  | .obj xs, .obj ys => jbeqObj xs ys
  | _, _ => false
termination_by structural a _ => a

/-- Elementwise `jbeq` on arrays. -/
def jbeqList : List JSON → List JSON → Bool
  | [], [] => true
  | x :: xs, y :: ys => jbeq x y && jbeqList xs ys
  | _, _ => false
termination_by structural a _ => a

/-- Entrywise `jbeq` on objects. -/
def jbeqObj : List (String × JSON) → List (String × JSON) → Bool
  | [], [] => true
  | (k, v) :: xs, (k', v') :: ys => k == k' && jbeq v v' && jbeqObj xs ys
  | _, _ => false
termination_by structural a _ => a

end

/-- Is the value hashable in Python (usable as a member of a `set`)?
Lists and dicts are unhashable; `None`, booleans, numbers and strings
are hashable. -/
def pyHashable : JSON → Bool
  | .arr _ => false
  | .obj _ => false
  | _ => true

/-- Python's `result[key] = value` on a dict modelled as an association
list: an existing key keeps its position and gets the new value, a new
key is appended at the end. -/
def setKey (l : List (String × JSON)) (k : String) (v : JSON) :
    List (String × JSON) :=
  if l.any (fun p => p.1 = k) then
    l.map (fun p => if p.1 = k then (k, v) else p)
  else l ++ [(k, v)]

/-- `jbeq` is sound and complete for propositional equality. -/
theorem jbeq_iff : ∀ (a b : JSON), jbeq a b = true ↔ a = b := by
  have key : ∀ n (a : JSON), sizeOf a ≤ n → ∀ b, jbeq a b = true ↔ a = b := by
    intro n
    induction n with
    | zero => intro a ha; cases a <;> simp at ha
    | succ n ih =>
      intro a ha b
      have listcase : ∀ (xs : List JSON), sizeOf xs ≤ n → ∀ ys,
          jbeqList xs ys = true ↔ xs = ys := by
        intro xs
        induction xs with
        | nil => intro _ ys; cases ys <;> simp [jbeqList]
        | cons x xt ihx =>
          intro hx ys
          cases ys with
          | nil => simp [jbeqList]
          | cons y yt =>
            rw [jbeqList]
            simp only [Bool.and_eq_true]
            rw [ih x (by simp at hx; omega) y, ihx (by simp at hx; omega) yt]
            simp
      have objcase : ∀ (xs : List (String × JSON)), sizeOf xs ≤ n → ∀ ys,
          jbeqObj xs ys = true ↔ xs = ys := by
        intro xs
        induction xs with
        | nil => intro _ ys; cases ys <;> simp [jbeqObj]
        | cons x xt ihx =>
          intro hx ys
          match x with
          | (k, v) =>
            cases ys with
            | nil => simp [jbeqObj]
            | cons y yt =>
              match y with
              | (k', v') =>
                rw [jbeqObj]
                simp only [Bool.and_eq_true]
                rw [ih v (by simp at hx; omega) v', ihx (by simp at hx; omega) yt]
                simp [and_assoc]
      cases a <;> cases b <;> simp [jbeq]
      case arr.arr xs ys => exact listcase xs (by simp at ha; omega) ys
      case obj.obj xs ys => exact objcase xs (by simp at ha; omega) ys
  intro a b
  exact key (sizeOf a) a (le_refl _) b

instance : DecidableEq JSON := fun a b => decidable_of_iff _ (jbeq_iff a b)

mutual

/-- Embedding of `install.py`'s `merge_json(source, target)`.
`Except.error` models an uncaught `TypeError`: the two explicit
`raise TypeError(msg)` sites of the source, and additionally the
`TypeError` that Python's `set(source)` / `item not in source_set`
raise when an element of either sequence is unhashable.  Membership in
`source_set` is by value equality. -/
def merge_json : JSON → JSON → Except String JSON
  | .obj sl, t =>
    match t with
    | .obj tl => (mergeObjLoop sl sl tl).map JSON.obj
    | _ => .error "cannot merge JSON objects with non-objects"
  | .arr sl, t =>
    match t with
    | .arr tl =>
      if sl.all pyHashable && tl.all pyHashable then
        .ok (.arr (sl ++ tl.filter (fun x => !decide (x ∈ sl))))
      else .error "unhashable type"
    | _ => .error "cannot merge JSON arrays with non-arrays"
  | s, _ => .ok s
termination_by structural _ t => t

/-- The loop `for key, value in target.items(): result[key] = ...` of
`merge_json`, with `res` starting as `source.copy()`; lookups use the
original `sl` (the source), updates go to `res`. -/
def mergeObjLoop (sl res : List (String × JSON)) :
    List (String × JSON) → Except String (List (String × JSON))
  | [] => .ok res
  | (k, v) :: rest =>
    match sl.lookup k with
    | some sv =>
      match merge_json sv v with
      | .ok m => mergeObjLoop sl (setKey res k m) rest
      | .error msg => .error msg
    | none => mergeObjLoop sl (res ++ [(k, v)]) rest
termination_by structural tl => tl

end

/-- Did the computation raise? -/
def isErr {ε α : Type} : Except ε α → Bool
  | .error _ => true
  | .ok _ => false

/-- Is the value a JSON object (a Python mapping)? -/
def isObjJ : JSON → Bool
  | .obj _ => true
  | _ => false

/-- Is the value a JSON array (a Python sequence)? -/
def isArrJ : JSON → Bool
  | .arr _ => true
  | _ => false

/-- The three external tools invoked by `check.py`'s `main`, in source
order: `run_ruff_check` (auto-fixing style linter), `run_ruff_format`
(code formatter), `run_mypy` (strict type checker). -/
inductive Tool where
  | ruffCheck : Tool
  | ruffFormat : Tool
  | mypy : Tool
deriving DecidableEq

/-- Embedding of `check.py`'s `run`: invoking one tool whose process
exits with `code`, given the list `ran` of tools run so far.  A zero
exit returns normally; a nonzero exit raises `SystemExit code`
(`sys.exit(exception.returncode)` after logging), modelled as
`Except.error` carrying the exit code and the tools run. -/
def run_tool (t : Tool) (code : Nat) (ran : List Tool) :
    Except (Nat × List Tool) (List Tool) :=
  if code = 0 then .ok (ran ++ [t]) else .error (code, ran ++ [t])

/-- Embedding of `check.py`'s `main`: run `ruff check`, then
`ruff format`, then `mypy`, each via `run_tool`, short-circuiting on the
first failure.  The result is the process exit code (0 when all three
succeed) together with the list of tools that were run, in order.
`codes` gives the exit code each tool's subprocess would return. -/
def check_main (codes : Tool → Nat) : Nat × List Tool :=
  match (run_tool .ruffCheck (codes .ruffCheck) []).bind
      (fun r => (run_tool .ruffFormat (codes .ruffFormat) r).bind
        (fun r' => run_tool .mypy (codes .mypy) r')) with
  | .ok ran => (0, ran)
  | .error e => e

/-- The claim-side per-key description of the object merge: a key found
in the target is recursively merged when also in the source and taken
from the target otherwise; a key not in the target falls back to the
accumulated result (initially a copy of the source). -/
def mergeSpecLookup (sl tl res : List (String × JSON)) (k : String) :
    Option JSON :=
  match tl.lookup k with
  | some tv =>
    match sl.lookup k with
    | some sv => (merge_json sv tv).toOption
    | none => some tv
  | none => res.lookup k

/-- `sub` occurs in `X` at position `r`. -/
def prefixAt (X sub : PyStr) (r : Nat) : Prop := sub <+: X.drop r

theorem isInfix_of_prefixAt {X sub : PyStr} {r : Nat} (h : prefixAt X sub r) :
    sub <:+: X :=
  List.infix_iff_prefix_suffix.mpr ⟨X.drop r, h, List.drop_suffix r X⟩

theorem infix_iff_exists_prefixAt {X sub : PyStr} :
    sub <:+: X ↔ ∃ r, prefixAt X sub r := by
  constructor
  · rintro ⟨l₁, l₂, rfl⟩
    refine ⟨l₁.length, ?_⟩
    unfold prefixAt
    rw [show l₁ ++ sub ++ l₂ = l₁ ++ (sub ++ l₂) by simp, List.drop_left]
    exact List.prefix_append sub l₂
  · rintro ⟨r, h⟩
    exact isInfix_of_prefixAt h

theorem prefixAt_length_le {X sub : PyStr} {r : Nat}
    (hsub : sub ≠ []) (h : prefixAt X sub r) :
    r + sub.length ≤ X.length := by
  have h1 := h.length_le
  simp only [List.length_drop] at h1
  have h2 : r ≤ X.length := by
    by_contra h'
    have : X.drop r = [] := List.drop_eq_nil_of_le (by omega)
    rw [prefixAt, this] at h
    exact hsub (List.prefix_nil.mp h)
  omega

theorem pyFindAux_eq_some_iff (sub : PyStr) :
    ∀ (s : PyStr) (k q : Nat),
      pyFindAux sub s k = some q ↔
        k ≤ q ∧ sub <+: s.drop (q - k) ∧ ∀ r, r < q - k → ¬ sub <+: s.drop r := by
  intro s
  induction s with
  | nil =>
    intro k q
    simp only [pyFindAux, List.drop_nil]
    by_cases h : sub <+: ([] : PyStr)
    · simp only [if_pos h]
      constructor
      · rintro h'
        have : k = q := by simpa using h'
        subst this
        exact ⟨le_refl _, h, fun r hr => by omega⟩
      · rintro ⟨h1, h2, h3⟩
        by_cases hq : q = k
        · simp [hq]
        · exact absurd h (h3 0 (by omega))
    · simp only [if_neg h]
      constructor
      · rintro h'; cases h'
      · rintro ⟨_, h2, _⟩; exact absurd h2 h
  | cons c t ih =>
    intro k q
    simp only [pyFindAux]
    by_cases h : sub <+: (c :: t)
    · simp only [if_pos h]
      constructor
      · rintro h'
        have : k = q := by simpa using h'
        subst this
        exact ⟨le_refl _, by simpa using h, fun r hr => by omega⟩
      · rintro ⟨h1, h2, h3⟩
        by_cases hq : q = k
        · simp [hq]
        · exact absurd (by simpa using h) (h3 0 (by omega))
    · simp only [if_neg h]
      rw [ih (k + 1) q]
      constructor
      · rintro ⟨h1, h2, h3⟩
        refine ⟨by omega, ?_, ?_⟩
        · have : q - k = (q - (k + 1)) + 1 := by omega
          rw [this]
          simpa using h2
        · intro r hr
          match r with
          | 0 => simpa using h
          | r' + 1 =>
            have := h3 r' (by omega)
            simpa using this
      · rintro ⟨h1, h2, h3⟩
        have hq : k < q := by
          rcases Nat.lt_or_ge k q with h' | h'
          · exact h'
          · have : q - k = 0 := by omega
            rw [this] at h2
            exact absurd (by simpa using h2) h
        refine ⟨by omega, ?_, ?_⟩
        · have : q - (k + 1) + 1 = q - k := by omega
          have h2' := h2
          rw [show q - k = (q - (k+1)) + 1 by omega] at h2'
          simpa using h2'
        · intro r hr
          have := h3 (r + 1) (by omega)
          simpa using this

theorem pyFind_eq_some_iff {X sub : PyStr} {i q : Nat} :
    pyFind X sub i = some q ↔
      i ≤ q ∧ prefixAt X sub q ∧ ∀ r, i ≤ r → r < q → ¬ prefixAt X sub r := by
  unfold pyFind prefixAt
  rw [pyFindAux_eq_some_iff]
  constructor
  · rintro ⟨h1, h2, h3⟩
    refine ⟨h1, ?_, ?_⟩
    · rwa [List.drop_drop, Nat.add_comm, Nat.sub_add_cancel h1] at h2
    · intro r hr1 hr2
      have := h3 (r - i) (by omega)
      rwa [List.drop_drop, Nat.add_comm, Nat.sub_add_cancel hr1] at this
  · rintro ⟨h1, h2, h3⟩
    refine ⟨h1, ?_, ?_⟩
    · rwa [List.drop_drop, Nat.add_comm, Nat.sub_add_cancel h1]
    · intro r hr
      have := h3 (i + r) (by omega) (by omega)
      rw [List.drop_drop]
      exact this

theorem pyFindAux_eq_none_iff (sub : PyStr) :
    ∀ (s : PyStr) (k : Nat),
      pyFindAux sub s k = none ↔ ∀ r, ¬ sub <+: s.drop r := by
  intro s
  induction s with
  | nil =>
    intro k
    simp only [pyFindAux, List.drop_nil]
    by_cases h : sub <+: ([] : PyStr) <;> simp [h]
  | cons c t ih =>
    intro k
    simp only [pyFindAux]
    by_cases h : sub <+: (c :: t)
    · simp only [if_pos h]
      constructor
      · rintro h'; cases h'
      · intro h'
        exact absurd (by simpa using h) (h' 0)
    · simp only [if_neg h]
      rw [ih (k + 1)]
      constructor
      · intro h' r
        match r with
        | 0 => simpa using h
        | r' + 1 => simpa using h' r'
      · intro h' r
        simpa using h' (r + 1)

theorem pyFind_eq_none_iff {X sub : PyStr} {i : Nat} :
    pyFind X sub i = none ↔ ∀ r, i ≤ r → ¬ prefixAt X sub r := by
  unfold pyFind prefixAt
  rw [pyFindAux_eq_none_iff]
  constructor
  · intro h r hr
    have := h (r - i)
    rwa [List.drop_drop, Nat.add_comm, Nat.sub_add_cancel hr] at this
  · intro h r
    have := h (i + r) (by omega)
    rw [List.drop_drop]
    exact this

theorem pyFind_zero_eq_none_iff {X sub : PyStr} :
    pyFind X sub 0 = none ↔ ¬ sub <:+: X := by
  rw [pyFind_eq_none_iff, infix_iff_exists_prefixAt]
  constructor
  · rintro h ⟨r, hr⟩
    exact h r (Nat.zero_le r) hr
  · intro h r _ hr
    exact h ⟨r, hr⟩

theorem prefixAt_append_of_lt {A B sub : PyStr} {r : Nat}
    (h : r + sub.length ≤ A.length) :
    prefixAt (A ++ B) sub r ↔ prefixAt A sub r := by
  unfold prefixAt
  rw [List.drop_append_of_le_length (by omega)]
  rw [List.prefix_iff_eq_take, List.prefix_iff_eq_take,
    List.take_append_of_le_length (by simp; omega)]

theorem prefixAt_append_of_ge {A B sub : PyStr} {r : Nat}
    (h : A.length ≤ r) :
    prefixAt (A ++ B) sub r ↔ prefixAt B sub (r - A.length) := by
  unfold prefixAt
  rw [show r = A.length + (r - A.length) by omega, List.drop_append]
  simp [Nat.add_sub_cancel_left]

/-- An occurrence of a newline-free `sub` cannot straddle the boundary
between `A` and a following `'\n'`. -/
theorem not_prefixAt_cross {A B sub : PyStr} {r : Nat}
    (hnl : '\n' ∉ sub) (h1 : r < A.length) (h2 : A.length < r + sub.length) :
    ¬ prefixAt (A ++ '\n' :: B) sub r := by
  intro h
  have hlen : A.length - r < sub.length := by omega
  have heq := h.getElem (n := A.length - r) hlen
  rw [List.getElem_drop] at heq
  simp only [show r + (A.length - r) = A.length from by omega] at heq
  rw [List.getElem_append_right (le_refl A.length)] at heq
  simp only [Nat.sub_self] at heq
  simp only [List.getElem_cons_zero] at heq
  exact hnl (heq ▸ List.getElem_mem hlen)

/-- An occurrence of a nonempty newline-free `sub` cannot start at the
`'\n'` separating `A` from the rest. -/
theorem not_prefixAt_at_newline {A B sub : PyStr}
    (hnl : '\n' ∉ sub) (hsub : sub ≠ []) :
    ¬ prefixAt (A ++ '\n' :: B) sub A.length := by
  intro h
  unfold prefixAt at h
  rw [List.drop_left] at h
  match sub, hsub with
  | c :: t, _ =>
    have := h.getElem (n := 0) (by simp)
    simp only [List.getElem_cons_zero] at this
    exact hnl (by simp [this])

theorem prefixAt_take {X sub : PyStr} {m r : Nat}
    (h : prefixAt (X.take m) sub r) :
    prefixAt X sub r := by
  unfold prefixAt at h ⊢
  have h1 : (X.take m).drop r = (X.drop r).take (m - r) := by
    rw [List.drop_take]
  rw [h1] at h
  exact h.trans (List.take_prefix _ _)

/-- No occurrence of `sub` lies inside `A` (given `¬ sub <:+: A`) when
the occurrence fits within `A`'s length. -/
theorem not_prefixAt_of_not_infix {A B sub : PyStr} {r : Nat}
    (hA : ¬ sub <:+: A) (hfit : r + sub.length ≤ A.length) :
    ¬ prefixAt (A ++ B) sub r := by
  intro h
  rw [prefixAt_append_of_lt hfit] at h
  exact hA (isInfix_of_prefixAt h)

theorem prefixAt_cons_succ {c : Char} {W sub : PyStr} {k : Nat} :
    prefixAt (c :: W) sub (k + 1) ↔ prefixAt W sub k := by
  unfold prefixAt
  rw [List.drop_succ_cons]

/-- For `r ≥ |C| + 1`, an occurrence in `C ++ '\n' :: W` is an
occurrence in `W`, shifted. -/
theorem prefixAt_strip {C W sub : PyStr} {r : Nat} (hr : C.length + 1 ≤ r) :
    prefixAt (C ++ '\n' :: W) sub r ↔ prefixAt W sub (r - C.length - 1) := by
  rw [prefixAt_append_of_ge (by omega)]
  rw [show r - C.length = (r - C.length - 1) + 1 by omega]
  exact prefixAt_cons_succ

/-- A nonempty newline-free `sub` that is not an infix of `A` has no
occurrence in `A ++ '\n' :: B` at any position `r ≤ |A|`. -/
theorem not_prefixAt_segment {A B sub : PyStr}
    (hnl : '\n' ∉ sub) (hsub : sub ≠ []) (hA : ¬ sub <:+: A)
    {r : Nat} (hr : r ≤ A.length) :
    ¬ prefixAt (A ++ '\n' :: B) sub r := by
  have hlen : 1 ≤ sub.length := by
    cases sub with
    | nil => exact absurd rfl hsub
    | cons c t => simp
  by_cases h1 : r = A.length
  · subst h1
    exact not_prefixAt_at_newline hnl hsub
  · by_cases h2 : r + sub.length ≤ A.length
    · exact not_prefixAt_of_not_infix hA h2
    · exact not_prefixAt_cross hnl (by omega) (by omega)

/-- First occurrence of the start delimiter in `C ++ wrapped p s e ++ D`
when `s` does not occur in `C`: position `|C| + 1` (the sole line `s` of
the wrapped block). -/
theorem pyFind_start_in_block (C D p s e : PyStr)
    (hnl_s : '\n' ∉ s) (hs : s ≠ []) (hCs : ¬ s <:+: C) :
    pyFind (C ++ wrapped p s e ++ D) s 0 = some (C.length + 1) := by
  have hX : C ++ wrapped p s e ++ D =
      C ++ '\n' :: (s ++ ('\n' :: (p ++ '\n' :: (e ++ ['\n']))) ++ D) := by
    simp [wrapped, List.append_assoc]
  rw [hX]
  rw [pyFind_eq_some_iff]
  refine ⟨by omega, ?_, ?_⟩
  · rw [prefixAt_strip (by omega)]
    simp only [Nat.add_sub_cancel_left, Nat.sub_self]
    unfold prefixAt
    simp only [List.drop_zero]
    rw [List.append_assoc]
    exact List.prefix_append s _
  · intro r _ hr
    exact not_prefixAt_segment hnl_s hs hCs (by omega)

/-- First occurrence of the end delimiter in `C ++ wrapped p s e ++ D`
at or after position `|C| + 1`, when `e` occurs neither in `s` nor in
`p`: position `|C| + |s| + |p| + 3` (the sole line `e` of the wrapped
block). -/
theorem pyFind_end_in_block (C D p s e : PyStr)
    (hnl_e : '\n' ∉ e) (he : e ≠ [])
    (hse : ¬ e <:+: s) (hpe : ¬ e <:+: p) :
    pyFind (C ++ wrapped p s e ++ D) e (C.length + 1) =
      some (C.length + s.length + p.length + 3) := by
  have hX : C ++ wrapped p s e ++ D =
      C ++ '\n' :: (s ++ '\n' :: (p ++ '\n' :: (e ++ '\n' :: D))) := by
    simp [wrapped, List.append_assoc]
  rw [hX]
  rw [pyFind_eq_some_iff]
  refine ⟨by omega, ?_, ?_⟩
  · rw [prefixAt_strip (by omega)]
    rw [show C.length + s.length + p.length + 3 - C.length - 1 =
      s.length + (p.length + 2) by omega]
    rw [prefixAt_append_of_ge (by omega)]
    rw [show s.length + (p.length + 2) - s.length = (p.length + 1) + 1 by omega]
    rw [prefixAt_cons_succ]
    rw [show p.length + 1 = p.length + 1 by rfl]
    rw [prefixAt_append_of_ge (by omega)]
    rw [show p.length + 1 - p.length = 0 + 1 by omega]
    rw [prefixAt_cons_succ]
    unfold prefixAt
    simp only [List.drop_zero]
    exact List.prefix_append e _
  · intro r hr1 hr2
    rw [prefixAt_strip (by omega)]
    set r' := r - C.length - 1 with hr'
    intro hocc
    by_cases hcase : r' ≤ s.length
    · exact not_prefixAt_segment hnl_e he hse hcase hocc
    · have hs1 : s.length + 1 ≤ r' := by omega
      rw [prefixAt_append_of_ge (by omega)] at hocc
      rw [show r' - s.length = (r' - s.length - 1) + 1 by omega] at hocc
      rw [prefixAt_cons_succ] at hocc
      have hr'2 : r' - s.length - 1 ≤ p.length := by omega
      exact not_prefixAt_segment hnl_e he hpe hr'2 hocc

/-- A document of the shape `C ++ wrapped p s e ++ D` with `s` not
occurring in `C` is a fixed point of the delimited merge with patch `p`:
the merge finds the block's own delimiters and splices the block over
itself. -/
theorem install_string_fixed (C D p s e : PyStr)
    (hnl_s : '\n' ∉ s) (hnl_e : '\n' ∉ e) (hs : s ≠ []) (he : e ≠ [])
    (hCs : ¬ s <:+: C) (hse : ¬ e <:+: s) (hpe : ¬ e <:+: p) :
    install_string p (C ++ wrapped p s e ++ D) (some s) (some e) =
      C ++ wrapped p s e ++ D := by
  have hfs := pyFind_start_in_block C D p s e hnl_s hs hCs
  have hfe := pyFind_end_in_block C D p s e hnl_e he hse hpe
  simp only [install_string, hfs, hfe]
  rw [if_neg (by omega)]
  have htake : (C ++ wrapped p s e ++ D).take (C.length + 1 - 1) = C := by
    rw [Nat.add_sub_cancel, List.append_assoc,
      List.take_append_of_le_length (le_refl _)]
    simp
  have hdrop : (C ++ wrapped p s e ++ D).drop
      (C.length + s.length + p.length + 3 + e.length + 1) = D := by
    have hlen : (C ++ wrapped p s e).length =
        C.length + s.length + p.length + 3 + e.length + 1 := by
      simp [wrapped]
      omega
    rw [← hlen, List.drop_left]
  rw [htake, hdrop]

theorem take_append_newline {doc : PyStr} {i : Nat}
    (hpos : 1 ≤ i) (hnl : doc[i - 1]? = some '\n') (X : PyStr) :
    doc.take (i - 1) ++ '\n' :: X = doc.take i ++ X := by
  have h1 : doc.take i = doc.take (i - 1) ++ ['\n'] := by
    rw [show i = (i - 1) + 1 by omega, List.take_succ, hnl]
    rfl
  rw [h1, List.append_assoc]
  rfl

/-- **C9** (confirmed).  If either delimiter is `None` (overwrite mode),
`install_string` returns the patch unchanged and the existing document
is discarded entirely; in particular
`install_string(patch, existing, None, None) = patch`. -/
theorem claim_C9 (existing patch : PyStr) (sd ed : Option PyStr)
    (h : sd = none ∨ ed = none) :
    install_string patch existing sd ed = patch := by
  rcases h with rfl | rfl
  · cases ed <;> rfl
  · cases sd <;> rfl

/-- Witness for `claim_C9` at a concrete input. -/
theorem claim_C9_witness :
    install_string "p".data "existing text".data none none = "p".data :=
  claim_C9 "existing text".data "p".data none none (Or.inl rfl)

/-- **C6** (confirmed).  If the existing text does not contain the start
marker, the wrapped block is appended to its end:
`merge(doc, patch, s, e) = doc + "\n" + s + "\n" + patch + "\n" + e + "\n"`. -/
theorem claim_C6 (doc p s e : PyStr) (h : ¬ s <:+: doc) :
    install_string p doc (some s) (some e) =
      doc ++ '\n' :: s ++ '\n' :: p ++ '\n' :: e ++ ['\n'] := by
  have hnone : pyFind doc s 0 = none := pyFind_zero_eq_none_iff.mpr h
  simp only [install_string, hnone, wrapped]
  simp [List.append_assoc]

/-- Witness for `claim_C6` at a concrete input. -/
theorem claim_C6_witness :
    install_string "p".data "A\nB\n".data (some "S".data) (some "E".data) =
      "A\nB\n\nS\np\nE\n".data := by
  have h := claim_C6 "A\nB\n".data "p".data "S".data "E".data (by decide)
  rw [h]
  decide

/-- **C1** (counterexample).  The existing text `"S\nx\nE\n"` begins
with the start marker `"S"` at character offset 0 (and contains it as a
whole line, with the end marker `"E"` after it), yet the merge does not
replace the delimited region with the wrapped block `"\nS\np\nE\n"`:
Python's `string[: start_index - 1]` is `string[: -1]` here, so the code
keeps all of the old text but its last character and appends.  The
actual result is `"S\nx\nE\nS\np\nE\n"`. -/
theorem claim_C1_counterexample :
    ("S".data ∈ splitlines "S\nx\nE\n".data) ∧
    install_string "p".data "S\nx\nE\n".data (some "S".data) (some "E".data) =
      "S\nx\nE\nS\np\nE\n".data ∧
    install_string "p".data "S\nx\nE\n".data (some "S".data) (some "E".data) ≠
      "\nS\np\nE\n".data := by
  refine ⟨by decide, by decide, by decide⟩

/-- **C1** (amended).  For every existing text whose first occurrence of
the start marker is at an offset `i ≥ 1` and immediately preceded by a
newline — so that the marker occurrence starts the line that begins at
offset `i` — and whose first occurrence of the end marker at or after
`i` is at `j` and followed by a newline (or ends the text), the merge
replaces everything from the start marker's line through the end
marker's line with the wrapped block, preserving the content before the
start marker's line (`doc.take i`) and after the end marker's line
(`doc.drop (j + e.length + 1)`) exactly.  The case `i = 0` (existing
text beginning with the start marker) is excluded: there the code
instead keeps all but the last character of the existing text and
appends the wrapped block (see `claim_C1_counterexample`). -/
theorem claim_C1_amended (doc p s e : PyStr) (i j : Nat)
    (hfind : pyFind doc s 0 = some i) (hpos : 1 ≤ i)
    (hnl : doc[i - 1]? = some '\n')
    (hj : pyFind doc e i = some j)
    (hend : doc[j + e.length]? = some '\n' ∨ j + e.length = doc.length) :
    install_string p doc (some s) (some e) =
      doc.take i ++ s ++ '\n' :: p ++ '\n' :: e ++ '\n' ::
        doc.drop (j + e.length + 1) := by
  simp only [install_string, hfind, hj, wrapped]
  rw [if_neg (by omega)]
  rw [List.append_assoc, List.cons_append]
  rw [take_append_newline hpos hnl]
  simp [List.append_assoc]

/-- Witness for `claim_C1_amended` at a concrete input. -/
theorem claim_C1_amended_witness :
    install_string "p".data "A\nS\nB\nE\nC\n".data
        (some "S".data) (some "E".data) = "A\nS\np\nE\nC\n".data := by
  have h := claim_C1_amended "A\nS\nB\nE\nC\n".data "p".data "S".data "E".data
    2 6 (by decide) (by decide) (by decide) (by decide) (Or.inl (by decide))
  rw [h]
  decide

/-- **C2** (counterexample).  The delimited merge is not idempotent for
every document: take `doc = "A\nS\nB\n"`, `patch = "p"`, markers
`s = "S"`, `e = "E"`.  The document contains the start marker but no end
marker, so the first merge appends the wrapped block, leaving the old
`"S"` line in place; the second merge then finds that old `"S"` line,
finds the appended block's `"E"` line as its end, and deletes everything
in between.  First application: `"A\nS\nB\n\nS\np\nE\n"`; second
application: `"A\nS\np\nE\n"`. -/
theorem claim_C2_counterexample :
    install_string "p".data "A\nS\nB\n".data (some "S".data) (some "E".data) =
      "A\nS\nB\n\nS\np\nE\n".data ∧
    install_string "p".data
        (install_string "p".data "A\nS\nB\n".data
          (some "S".data) (some "E".data))
        (some "S".data) (some "E".data) ≠
      install_string "p".data "A\nS\nB\n".data
        (some "S".data) (some "E".data) := by
  refine ⟨by decide, by decide⟩

/-- **C2** (amended).  The delimited merge is idempotent,
`merge(merge(doc, patch, s, e), patch, s, e) = merge(doc, patch, s, e)`,
provided the markers do not interfere with the other strings: the
markers contain no newline, the end marker occurs neither in the start
marker nor in the patch, the document does not begin with the start
marker (see `claim_C1_counterexample` for the offset-0 anomaly), and
every occurrence of the start marker in the document is followed by an
occurrence of the end marker (`marker_closed`; otherwise the first
merge appends while leaving a stray start marker that the second merge
then matches, see `claim_C2_counterexample`). -/
theorem claim_C2_amended (doc p s e : PyStr)
    (hnl_s : '\n' ∉ s) (hnl_e : '\n' ∉ e)
    (hse : ¬ e <:+: s) (hpe : ¬ e <:+: p)
    (hpref : ¬ s <+: doc)
    (hclosed : marker_closed doc s e = true) :
    install_string p (install_string p doc (some s) (some e))
        (some s) (some e) =
      install_string p doc (some s) (some e) := by
  have hs : s ≠ [] := by
    intro h
    exact hpref (h ▸ List.nil_prefix)
  have he : e ≠ [] := by
    intro h
    exact hse (h ▸ List.nil_infix)
  cases hfs : pyFind doc s 0 with
  | none =>
    have h1 : install_string p doc (some s) (some e) = doc ++ wrapped p s e := by
      simp only [install_string, hfs]
    have h2 := install_string_fixed doc [] p s e hnl_s hnl_e hs he
      (pyFind_zero_eq_none_iff.mp hfs) hse hpe
    rw [List.append_nil] at h2
    rw [h1]
    exact h2
  | some i =>
    have hje : (pyFind doc e i).isSome := by
      unfold marker_closed at hclosed
      rw [hfs] at hclosed
      exact hclosed
    obtain ⟨j, hfe⟩ := Option.isSome_iff_exists.mp hje
    have hchar := pyFind_eq_some_iff.mp hfs
    have hpos : 1 ≤ i := by
      rcases Nat.eq_zero_or_pos i with h0 | h0
      · exfalso
        have := hchar.2.1
        rw [h0] at this
        unfold prefixAt at this
        rw [List.drop_zero] at this
        exact hpref this
      · exact h0
    have hCs : ¬ s <:+: doc.take (i - 1) := by
      intro hinf
      obtain ⟨r, hr⟩ := infix_iff_exists_prefixAt.mp hinf
      have hfit := prefixAt_length_le hs hr
      rw [List.length_take] at hfit
      have hrlt : r < i := by
        have h1 : 1 ≤ s.length := by
          cases s with
          | nil => exact absurd rfl hs
          | cons c t => simp
        omega
      exact hchar.2.2 r (Nat.zero_le r) hrlt (prefixAt_take hr)
    have h1 : install_string p doc (some s) (some e) =
        doc.take (i - 1) ++ wrapped p s e ++ doc.drop (j + e.length + 1) := by
      simp only [install_string, hfs, hfe]
      rw [if_neg (by omega)]
    rw [h1]
    exact install_string_fixed (doc.take (i - 1)) (doc.drop (j + e.length + 1))
      p s e hnl_s hnl_e hs he hCs hse hpe

/-- Witness for `claim_C2_amended` at a concrete input (replacement
case: the document already contains a delimited region). -/
theorem claim_C2_amended_witness :
    install_string "p".data
        (install_string "p".data "A\nS\nold\nE\nB\n".data
          (some "S".data) (some "E".data))
        (some "S".data) (some "E".data) =
      install_string "p".data "A\nS\nold\nE\nB\n".data
        (some "S".data) (some "E".data) :=
  claim_C2_amended "A\nS\nold\nE\nB\n".data "p".data "S".data "E".data
    (by decide) (by decide) (by decide) (by decide) (by decide) (by decide)

/-- The state machine of `read_source_file` computes the claim-side
line-dropping functions, in both states. -/
theorem processLines_eq_spec :
    ∀ lines : List PyStr,
      processLines lines false = dropIgnoredSpec lines ∧
      processLines lines true = skipIgnoredSpec lines := by
  intro lines
  induction lines with
  | nil => exact ⟨rfl, rfl⟩
  | cons l rest ih =>
    by_cases hS : IGNORE_START_DELIMITER <:+: l <;>
      by_cases hE : IGNORE_END_DELIMITER <:+: l <;>
      constructor <;>
      simp [processLines, dropIgnoredSpec, skipIgnoredSpec, hS, hE, ih.1, ih.2]

/-- **C7** (confirmed).  The source reader drops every line containing
the ignore-start marker and — unless the ignore-end marker sits on the
same line — every line up to and including the next line containing the
ignore-end marker; an unmatched ignore-start suppresses the remainder of
the file; the surviving lines are reassembled newline-joined with a
single trailing newline.  `dropIgnoredSpec` is the claim-side
description of the dropped lines. -/
theorem claim_C7 (src : PyStr) :
    read_source_file src =
      joinNL (dropIgnoredSpec (splitlines src)) ++ ['\n'] := by
  unfold read_source_file
  rw [(processLines_eq_spec (splitlines src)).1]

/-- Splitting the line loop of `read_source_file` at any point: the
lines after the split are processed starting from the flag state left
by the lines before it. -/
theorem processLines_append :
    ∀ (l₁ l₂ : List PyStr) (b : Bool),
      processLines (l₁ ++ l₂) b =
        processLines l₁ b ++ processLines l₂ (stateAfter l₁ b) := by
  intro l₁
  induction l₁ with
  | nil => intro l₂ b; simp [processLines, stateAfter]
  | cons l rest ih =>
    intro l₂ b
    simp only [List.cons_append, processLines, stateAfter]
    rw [List.append_eq, ih]
    simp [List.append_assoc]

/-- **C10** (confirmed).  A line containing the ignore-end marker that
occurs outside any ignore region (the `in_ignored_section` flag is off
when it is reached) and does not itself contain the ignore-start marker
is kept unchanged in the source reader's output; only an ignore-end
line that closes an open ignore region is removed. -/
theorem claim_C10 (pre rest : List PyStr) (l : PyStr)
    (hstate : stateAfter pre false = false)
    (hend : IGNORE_END_DELIMITER <:+: l)
    (hstart : ¬ IGNORE_START_DELIMITER <:+: l) :
    processLines (pre ++ l :: rest) false =
      processLines pre false ++ l :: processLines rest false := by
  rw [processLines_append, hstate]
  simp [processLines, hstart, hend]

/-- Witness for `claim_C10` at a concrete input. -/
theorem claim_C10_witness :
    processLines
        ["keep".data, "x valentjn_dotfiles_ignore_end".data, "tail".data]
        false =
      ["keep".data, "x valentjn_dotfiles_ignore_end".data, "tail".data] := by
  have h := claim_C10 ["keep".data] ["tail".data]
    "x valentjn_dotfiles_ignore_end".data (by decide) (by decide) (by decide)
  simp only [List.singleton_append] at h
  rw [h]
  decide

theorem lookup_append_of_none {l₁ : List (String × JSON)}
    (l₂ : List (String × JSON)) (k : String) (h : l₁.lookup k = none) :
    (l₁ ++ l₂).lookup k = l₂.lookup k := by
  induction l₁ with
  | nil => simp
  | cons p rest ih =>
    match p with
    | (k', v') =>
      rw [List.lookup_cons] at h
      by_cases hk : k == k'
      · simp [hk] at h
      · simp only [hk] at h
        simp only [List.cons_append, List.lookup_cons, hk]
        exact ih h

theorem lookup_append_of_some {l₁ : List (String × JSON)}
    (l₂ : List (String × JSON)) {k : String} {v : JSON}
    (h : l₁.lookup k = some v) :
    (l₁ ++ l₂).lookup k = some v := by
  induction l₁ with
  | nil => simp [List.lookup] at h
  | cons p rest ih =>
    match p with
    | (k', v') =>
      rw [List.lookup_cons] at h
      by_cases hk : k == k'
      · simp only [hk] at h
        simp only [List.cons_append, List.lookup_cons, hk]
        exact h
      · simp only [hk] at h
        simp only [List.cons_append, List.lookup_cons, hk]
        exact ih h

theorem lookup_eq_none_of_forall {l : List (String × JSON)} {k : String}
    (h : ∀ p ∈ l, p.1 ≠ k) : l.lookup k = none := by
  induction l with
  | nil => rfl
  | cons p rest ih =>
    match p with
    | (k', v') =>
      have h1 : k' ≠ k := h (k', v') (List.mem_cons_self _ _)
      rw [List.lookup_cons]
      have hk : (k == k') = false := by
        simp
        exact fun hh => h1 hh.symm
      simp only [hk]
      exact ih fun q hq => h q (List.mem_cons_of_mem _ hq)

theorem setKey_lookup_self (l : List (String × JSON)) (k : String) (v : JSON) :
    (setKey l k v).lookup k = some v := by
  unfold setKey
  by_cases hany : l.any (fun p => p.1 = k)
  · rw [if_pos hany]
    induction l with
    | nil => simp at hany
    | cons p rest ih =>
      match p with
      | (k', v') =>
        by_cases hk : k' = k
        · subst hk
          simp [List.lookup_cons]
        · have hrest : rest.any (fun p => p.1 = k) := by
            simp only [List.any_cons] at hany
            rcases Bool.or_eq_true_iff.mp hany with h1 | h1
            · exact absurd (by simpa using h1) hk
            · exact h1
          have hkk : (k == k') = false := by
            simp
            exact fun hh => hk hh.symm
          simp [List.lookup_cons, if_neg hk, hkk]
          simpa [hkk] using ih hrest
  · rw [if_neg hany]
    have hnone : l.lookup k = none := by
      refine lookup_eq_none_of_forall fun p hp => ?_
      rw [Bool.not_eq_true, List.any_eq_false] at hany
      simpa using hany p hp
    rw [lookup_append_of_none _ _ hnone]
    simp [List.lookup_cons]

theorem setKey_lookup_ne (l : List (String × JSON)) (k : String) (v : JSON)
    {q : String} (hq : q ≠ k) :
    (setKey l k v).lookup q = l.lookup q := by
  unfold setKey
  by_cases hany : l.any (fun p => p.1 = k)
  · rw [if_pos hany]
    clear hany
    induction l with
    | nil => rfl
    | cons p rest ih =>
      match p with
      | (k', v') =>
        by_cases hk : k' = k
        · subst hk
          have h1 : (q == k') = false := by
            simp
            exact hq
          simp [List.lookup_cons, h1, ih]
        · by_cases h2 : q = k'
          · subst h2
            simp [List.lookup_cons, if_neg hk]
          · have hb : (q == k') = false := by
              simp
              exact h2
            simp [List.lookup_cons, if_neg hk, hb, ih]
  · rw [if_neg hany]
    cases hl : l.lookup q with
    | some w => exact lookup_append_of_some _ hl
    | none =>
      rw [lookup_append_of_none _ _ hl]
      have h1 : (q == k) = false := by
        simp
        exact hq
      simp [List.lookup_cons, h1]

theorem mergeSpecLookup_of_none {sl tl res : List (String × JSON)}
    {k : String} (h : tl.lookup k = none) :
    mergeSpecLookup sl tl res k = res.lookup k := by
  unfold mergeSpecLookup
  rw [h]

theorem mergeSpecLookup_of_some_some {sl tl res : List (String × JSON)}
    {k : String} {tv sv : JSON}
    (h1 : tl.lookup k = some tv) (h2 : sl.lookup k = some sv) :
    mergeSpecLookup sl tl res k = (merge_json sv tv).toOption := by
  unfold mergeSpecLookup
  rw [h1, h2]

theorem mergeSpecLookup_of_some_none {sl tl res : List (String × JSON)}
    {k : String} {tv : JSON}
    (h1 : tl.lookup k = some tv) (h2 : sl.lookup k = none) :
    mergeSpecLookup sl tl res k = some tv := by
  unfold mergeSpecLookup
  rw [h1, h2]

theorem mergeSpecLookup_congr_tl {sl tl tl' res : List (String × JSON)}
    {k : String} (h : tl.lookup k = tl'.lookup k) :
    mergeSpecLookup sl tl res k = mergeSpecLookup sl tl' res k := by
  unfold mergeSpecLookup
  rw [h]

theorem mergeSpecLookup_congr_res {sl tl res res' : List (String × JSON)}
    {k : String} (h : res.lookup k = res'.lookup k) :
    mergeSpecLookup sl tl res k = mergeSpecLookup sl tl res' k := by
  unfold mergeSpecLookup
  cases htl : tl.lookup k with
  | some tv => rfl
  | none => rw [h]

/-- The per-key content of the object-merge loop, on success.  The
invariant `hres` states that a key of the remaining target that is
absent from the source is also absent from the accumulated result. -/
theorem mergeObjLoop_ok_lookup (sl : List (String × JSON)) :
    ∀ (tl res out : List (String × JSON)),
      (tl.map Prod.fst).Nodup →
      (∀ k₁ tv, tl.lookup k₁ = some tv → sl.lookup k₁ = none →
        res.lookup k₁ = none) →
      mergeObjLoop sl res tl = .ok out →
      ∀ k, out.lookup k = mergeSpecLookup sl tl res k := by
  intro tl
  induction tl with
  | nil =>
    intro res out _ _ hok k
    unfold mergeObjLoop at hok
    cases hok
    exact (mergeSpecLookup_of_none (by simp [List.lookup])).symm
  | cons hd rest ih =>
    match hd with
    | (k0, v0) =>
      intro res out hnd hres hok k
      have hnd0 : k0 ∉ rest.map Prod.fst := by
        simp only [List.map_cons, List.nodup_cons] at hnd
        exact hnd.1
      have hndr : (rest.map Prod.fst).Nodup := by
        simp only [List.map_cons, List.nodup_cons] at hnd
        exact hnd.2
      have hrest_none : rest.lookup k0 = none := by
        refine lookup_eq_none_of_forall fun p hp => ?_
        intro hpk
        exact hnd0 (hpk ▸ List.mem_map_of_mem Prod.fst hp)
      have hkbeq : ∀ q : String, q ≠ k0 → (q == k0) = false := by
        intro q hq
        simpa using hq
      have hhead : ((k0, v0) :: rest).lookup k0 = some v0 := by
        rw [List.lookup_cons]
        simp
      have hskip : ∀ q : String, q ≠ k0 →
          ((k0, v0) :: rest).lookup q = rest.lookup q := by
        intro q hq
        rw [List.lookup_cons, hkbeq q hq]
      rw [mergeObjLoop] at hok
      split at hok
      next sv hsl =>
        split at hok
        next m hm =>
          have hres' : ∀ k₁ tv, rest.lookup k₁ = some tv →
              sl.lookup k₁ = none → (setKey res k0 m).lookup k₁ = none := by
            intro k₁ tv h1 h2
            have hk₁ : k₁ ≠ k0 := by
              intro he
              rw [he, hrest_none] at h1
              cases h1
            rw [setKey_lookup_ne res k0 m hk₁]
            exact hres k₁ tv ((hskip k₁ hk₁) ▸ h1) h2
          have ihout := ih (setKey res k0 m) out hndr hres' hok
          by_cases hk : k = k0
          · subst hk
            have h1 := ihout k
            rw [mergeSpecLookup_of_none hrest_none, setKey_lookup_self] at h1
            rw [h1, mergeSpecLookup_of_some_some hhead hsl, hm]
            rfl
          · have h1 := ihout k
            rw [h1,
              mergeSpecLookup_congr_res (setKey_lookup_ne res k0 m hk),
              ← mergeSpecLookup_congr_tl (hskip k hk)]
        next msg hm =>
          cases hok
      next hsl =>
        have hres' : ∀ k₁ tv, rest.lookup k₁ = some tv →
            sl.lookup k₁ = none → (res ++ [(k0, v0)]).lookup k₁ = none := by
          intro k₁ tv h1 h2
          have hk₁ : k₁ ≠ k0 := by
            intro he
            rw [he, hrest_none] at h1
            cases h1
          have hr : res.lookup k₁ = none :=
            hres k₁ tv ((hskip k₁ hk₁) ▸ h1) h2
          rw [lookup_append_of_none _ _ hr]
          rw [List.lookup_cons, hkbeq k₁ hk₁]
          rfl
        have ihout := ih (res ++ [(k0, v0)]) out hndr hres' hok
        by_cases hk : k = k0
        · subst hk
          have hresk : res.lookup k = none := hres k v0 hhead hsl
          have happ : (res ++ [(k, v0)]).lookup k = some v0 := by
            rw [lookup_append_of_none _ _ hresk]
            rw [List.lookup_cons]
            simp
          have h1 := ihout k
          rw [mergeSpecLookup_of_none hrest_none, happ] at h1
          rw [h1, mergeSpecLookup_of_some_none hhead hsl]
        · have h1 := ihout k
          have happ : (res ++ [(k0, v0)]).lookup k = res.lookup k := by
            cases hresk : res.lookup k with
            | some w => exact lookup_append_of_some _ hresk
            | none =>
              rw [lookup_append_of_none _ _ hresk]
              rw [List.lookup_cons, hkbeq k hk]
              simp [List.lookup, hresk]
          rw [h1, mergeSpecLookup_congr_res happ,
            ← mergeSpecLookup_congr_tl (hskip k hk)]

/-- **C3** (confirmed).  Merging two JSON mappings starts from a copy of
the source and applies every key of the target: a key in both is merged
recursively, a key only in the target is inserted unchanged, a key only
in the source keeps the source's value (`mergeSpecLookup sl tl sl`
states exactly this per-key content).  Stated for mappings with unique
keys (as produced by `json.loads`) whose merge succeeds.  The second
conjunct is the claim's concrete example. -/
theorem claim_C3 :
    (∀ (sl tl : List (String × JSON)) (out : JSON),
      (sl.map Prod.fst).Nodup → (tl.map Prod.fst).Nodup →
      merge_json (.obj sl) (.obj tl) = .ok out →
      ∃ rl, out = .obj rl ∧ ∀ k, rl.lookup k = mergeSpecLookup sl tl sl k) ∧
    merge_json (.obj [("a", .num 1), ("b", .obj [("x", .num 1)])])
        (.obj [("b", .obj [("y", .num 2)]), ("c", .num 3)]) =
      .ok (.obj [("a", .num 1),
        ("b", .obj [("x", .num 1), ("y", .num 2)]), ("c", .num 3)]) := by
  constructor
  · intro sl tl out _ hndt hok
    rw [merge_json] at hok
    cases hloop : mergeObjLoop sl sl tl with
    | error msg =>
      rw [hloop] at hok
      cases hok
    | ok rl =>
      rw [hloop] at hok
      cases hok
      exact ⟨rl, rfl,
        mergeObjLoop_ok_lookup sl tl sl rl hndt (fun _ _ _ h2 => h2) hloop⟩
  · simp [merge_json, mergeObjLoop, setKey, List.lookup, Except.map]

/-- Witness for `claim_C3` at the claim's concrete example, read off for
the key `"c"` (present only in the target). -/
theorem claim_C3_witness :
    List.lookup "c" [("a", JSON.num 1),
        ("b", JSON.obj [("x", JSON.num 1), ("y", JSON.num 2)]),
        ("c", JSON.num 3)] =
      mergeSpecLookup [("a", JSON.num 1), ("b", JSON.obj [("x", JSON.num 1)])]
        [("b", JSON.obj [("y", JSON.num 2)]), ("c", JSON.num 3)]
        [("a", JSON.num 1), ("b", JSON.obj [("x", JSON.num 1)])] "c" := by
  obtain ⟨rl, hrl, hall⟩ := claim_C3.1
    [("a", JSON.num 1), ("b", JSON.obj [("x", JSON.num 1)])]
    [("b", JSON.obj [("y", JSON.num 2)]), ("c", JSON.num 3)]
    (JSON.obj [("a", JSON.num 1),
      ("b", JSON.obj [("x", JSON.num 1), ("y", JSON.num 2)]),
      ("c", JSON.num 3)])
    (by decide) (by decide) claim_C3.2
  injection hrl with h
  subst h
  exact hall "c"

/-- **C5** (confirmed).  Merging two JSON sequences of hashable elements
yields the source sequence followed by exactly those target elements not
already present (by value equality) in the source, in the target's
relative order.  The second conjunct is the claim's concrete example. -/
theorem claim_C5 :
    (∀ sl tl : List JSON,
      (∀ x ∈ sl, pyHashable x = true) → (∀ x ∈ tl, pyHashable x = true) →
      merge_json (.arr sl) (.arr tl) =
        .ok (.arr (sl ++ tl.filter (fun x => decide (x ∉ sl))))) ∧
    merge_json (.arr [.num 1, .num 2]) (.arr [.num 2, .num 3]) =
      .ok (.arr [.num 1, .num 2, .num 3]) := by
  constructor
  · intro sl tl h1 h2
    rw [merge_json]
    rw [if_pos]
    · simp only [decide_not]
    · rw [Bool.and_eq_true, List.all_eq_true, List.all_eq_true]
      exact ⟨h1, h2⟩
  · simp [merge_json, pyHashable]

/-- Witness for `claim_C5` at a concrete input. -/
theorem claim_C5_witness :
    merge_json (.arr [.num 1]) (.arr [.num 1, .str "a"]) =
      .ok (.arr ([JSON.num 1] ++
        [JSON.num 1, JSON.str "a"].filter
          (fun x => decide (x ∉ [JSON.num 1])))) :=
  claim_C5.1 [JSON.num 1] [JSON.num 1, JSON.str "a"] (by decide) (by decide)

theorem isErr_map {ε α β : Type} (f : α → β) (x : Except ε α) :
    isErr (x.map f) = isErr x := by
  cases x <;> rfl

/-- The object-merge loop raises exactly when some target entry whose
key is also in the source has a failing recursive merge. -/
theorem mergeObjLoop_isErr_iff (sl : List (String × JSON)) :
    ∀ (tl res : List (String × JSON)),
      isErr (mergeObjLoop sl res tl) = true ↔
        ∃ k tv, (k, tv) ∈ tl ∧ ∃ sv, sl.lookup k = some sv ∧
          isErr (merge_json sv tv) = true := by
  intro tl
  induction tl with
  | nil =>
    intro res
    unfold mergeObjLoop
    simp [isErr]
  | cons hd rest ih =>
    match hd with
    | (k0, v0) =>
      intro res
      rw [mergeObjLoop]
      split
      next sv hsl =>
        split
        next m hm =>
          rw [ih]
          constructor
          · rintro ⟨k, tv, hmem, sv', hlk, herr⟩
            exact ⟨k, tv, List.mem_cons_of_mem _ hmem, sv', hlk, herr⟩
          · rintro ⟨k, tv, hmem, sv', hlk, herr⟩
            rcases List.mem_cons.mp hmem with heq | hmem'
            · injection heq with hk htv
              subst hk
              subst htv
              rw [hsl] at hlk
              injection hlk with hsv
              subst hsv
              rw [hm] at herr
              cases herr
            · exact ⟨k, tv, hmem', sv', hlk, herr⟩
        next msg hm =>
          simp only [isErr, true_iff]
          exact ⟨k0, v0, List.mem_cons_self _ _, sv, hsl, by rw [hm]⟩
      next hsl =>
        rw [ih]
        constructor
        · rintro ⟨k, tv, hmem, sv', hlk, herr⟩
          exact ⟨k, tv, List.mem_cons_of_mem _ hmem, sv', hlk, herr⟩
        · rintro ⟨k, tv, hmem, sv', hlk, herr⟩
          rcases List.mem_cons.mp hmem with heq | hmem'
          · injection heq with hk htv
            subst hk
            rw [hsl] at hlk
            cases hlk
          · exact ⟨k, tv, hmem', sv', hlk, herr⟩

/-- **C4** (counterexample).  A non-mapping source meeting a mapping
target does *not* raise: `merge_json(1, {})` returns the scalar source
`1` unchanged (the `return source` fall-through of `merge_json`), so the
claim's "vice versa" direction is false. -/
theorem claim_C4_counterexample :
    merge_json (.num 1) (.obj []) = .ok (.num 1) ∧
    isErr (merge_json (.num 1) (.obj [])) = false := by
  constructor
  · rw [merge_json] <;> simp
  · rw [merge_json] <;> simp [isErr]

/-- **C4** (amended).  `merge_json` raises exactly when, at the top
level or at some recursive merge of values under a key present in both
mappings, a mapping source meets a non-mapping target, a sequence source
meets a non-sequence target, or two sequences are merged and an element
of either is unhashable (itself a mapping or sequence, breaking
`set(source)` / the membership test).  A non-mapping, non-sequence
source never raises, whatever the target: the source value is returned.
The error is modelled as `Except.error`, so a failing merge produces no
partial result. -/
theorem claim_C4_amended (s t : JSON) :
    isErr (merge_json s t) = true ↔
      (isObjJ s = true ∧ isObjJ t = false) ∨
      (isArrJ s = true ∧ isArrJ t = false) ∨
      (∃ sl tl, s = .obj sl ∧ t = .obj tl ∧
        ∃ k tv, (k, tv) ∈ tl ∧ ∃ sv, sl.lookup k = some sv ∧
          isErr (merge_json sv tv) = true) ∨
      (∃ sl tl, s = .arr sl ∧ t = .arr tl ∧
        ((∃ x ∈ sl, pyHashable x = false) ∨ ∃ x ∈ tl, pyHashable x = false)) := by
  cases s with
  | obj sl =>
    cases t with
    | obj tl =>
      rw [merge_json, isErr_map, mergeObjLoop_isErr_iff]
      simp [isObjJ, isArrJ]
    | null => rw [merge_json] <;> simp [isErr, isObjJ, isArrJ]
    | bool b => rw [merge_json] <;> simp [isErr, isObjJ, isArrJ]
    | num n => rw [merge_json] <;> simp [isErr, isObjJ, isArrJ]
    | str st => rw [merge_json] <;> simp [isErr, isObjJ, isArrJ]
    | arr tl => rw [merge_json] <;> simp [isErr, isObjJ, isArrJ]
  | arr sl =>
    cases t with
    | arr tl =>
      rw [merge_json]
      by_cases hall : (sl.all pyHashable && tl.all pyHashable) = true
      · rw [if_pos hall]
        rw [Bool.and_eq_true, List.all_eq_true, List.all_eq_true] at hall
        simp only [isErr, isObjJ, isArrJ]
        constructor
        · intro h
          cases h
        · rintro (⟨h1, _⟩ | ⟨_, h2⟩ | ⟨sl', tl', h1, _⟩ | ⟨sl', tl', h1, h2, h3⟩)
          · cases h1
          · cases h2
          · cases h1
          · injection h1 with h1'
            injection h2 with h2'
            subst h1'
            subst h2'
            rcases h3 with ⟨x, hx, hfx⟩ | ⟨x, hx, hfx⟩
            · rw [hall.1 x hx] at hfx
              cases hfx
            · rw [hall.2 x hx] at hfx
              cases hfx
      · rw [if_neg hall]
        simp only [isErr, isObjJ, isArrJ]
        constructor
        · intro _
          refine Or.inr (Or.inr (Or.inr ⟨sl, tl, rfl, rfl, ?_⟩))
          rw [Bool.and_eq_true, not_and_or] at hall
          rcases hall with h | h
          · refine Or.inl ?_
            rw [List.all_eq_true] at h
            push_neg at h
            obtain ⟨x, hx, hfx⟩ := h
            exact ⟨x, hx, by simpa using hfx⟩
          · refine Or.inr ?_
            rw [List.all_eq_true] at h
            push_neg at h
            obtain ⟨x, hx, hfx⟩ := h
            exact ⟨x, hx, by simpa using hfx⟩
        · intro _
          simp [isErr]
    | null => rw [merge_json] <;> simp [isErr, isObjJ, isArrJ]
    | bool b => rw [merge_json] <;> simp [isErr, isObjJ, isArrJ]
    | num n => rw [merge_json] <;> simp [isErr, isObjJ, isArrJ]
    | str st => rw [merge_json] <;> simp [isErr, isObjJ, isArrJ]
    | obj tl => rw [merge_json] <;> simp [isErr, isObjJ, isArrJ]
  | null => rw [merge_json] <;> simp [isErr, isObjJ, isArrJ]
  | bool b => rw [merge_json] <;> simp [isErr, isObjJ, isArrJ]
  | num n => rw [merge_json] <;> simp [isErr, isObjJ, isArrJ]
  | str st => rw [merge_json] <;> simp [isErr, isObjJ, isArrJ]

/-- **C8** (confirmed).  The checker runs the three tools in the fixed
order `ruff check` (auto-fixing style linter), `ruff format` (code
formatter), `mypy` (strict type checker); the first tool exiting
nonzero makes its exit code the checker's own exit code and the
remaining tools are not run; if all three succeed the checker exits 0
(`check_main` returns the exit code together with the list of tools
run, in order). -/
theorem claim_C8 (codes : Tool → Nat) :
    (codes .ruffCheck ≠ 0 →
      check_main codes = (codes .ruffCheck, [.ruffCheck])) ∧
    (codes .ruffCheck = 0 → codes .ruffFormat ≠ 0 →
      check_main codes = (codes .ruffFormat, [.ruffCheck, .ruffFormat])) ∧
    (codes .ruffCheck = 0 → codes .ruffFormat = 0 → codes .mypy ≠ 0 →
      check_main codes = (codes .mypy, [.ruffCheck, .ruffFormat, .mypy])) ∧
    (codes .ruffCheck = 0 → codes .ruffFormat = 0 → codes .mypy = 0 →
      check_main codes = (0, [.ruffCheck, .ruffFormat, .mypy])) := by
  refine ⟨fun h1 => ?_, fun h1 h2 => ?_, fun h1 h2 h3 => ?_,
    fun h1 h2 h3 => ?_⟩
  · simp [check_main, run_tool, h1, Except.bind]
  · simp [check_main, run_tool, h1, h2, Except.bind]
  · simp [check_main, run_tool, h1, h2, h3, Except.bind]
  · simp [check_main, run_tool, h1, h2, h3, Except.bind]

/-- Witness for `claim_C8` at a concrete assignment of exit codes:
the formatter fails with exit code 3, so the type checker is not run
and the checker exits 3. -/
theorem claim_C8_witness :
    check_main (fun t => match t with
      | .ruffCheck => 0
      | .ruffFormat => 3
      | .mypy => 7) = (3, [.ruffCheck, .ruffFormat]) :=
  (claim_C8 _).2.1 rfl (by decide)

end Dotfiles
